import Mathlib

/-!
Verification of the gtatool streaming core (gnu_gta repository).

This file shallowly embeds the parts of gtatool that the specification
talks about:

* `src/gtatool/src/base/str.cpp` — the numeric/string conversion helpers
  (`uint_to_str`, `int_to_str`, `str::from(bool)`, `str::to<bool>`,
  `str::sanitize`);
* `src/gtatool/src/base/msg.cpp` — the message filtering module;
* `src/gtatool/src/conv-raw/to-raw.cpp` — the to-raw conversion command;
* the streaming core declared in `src/gtatool/src/lib.h`
  (type/value codec, endianness codec, element loop, array loop,
  temp-file buffering).  The implementation file of `lib.h` is not part
  of the source tree given here, so those operations are modelled from
  the specification text (each such definition says so in its doc
  comment).

Machine integers are modelled as `Int`/`Nat`; byte buffers and files are
modelled as `List Nat` (one `Nat` per byte); C++ `std::string` is
modelled as Lean `String`/`List Char`.  Loops are embedded as
fuel-indexed structural recursions so that every definition is
executable by `decide`/`rfl`; the fuel arguments are always instantiated
with a provably sufficient bound.
-/

deriving instance DecidableEq for Except

/-! ## Decimal digits: common helpers

`decVal` is the value of a most-significant-digit-first list of ASCII
digit characters; it is the semantic yardstick against which the
string-producing functions of `str.cpp` are measured. -/

def decVal (l : List Char) : Nat :=
  l.foldl (fun a c => 10 * a + (c.toNat - 48)) 0

def is_digit_char (c : Char) : Bool :=
  decide (48 ≤ c.toNat) && decide (c.toNat ≤ 57)

def is_space_char (c : Char) : Bool :=
  decide (c.toNat = 32) || (decide (9 ≤ c.toNat) && decide (c.toNat ≤ 13))

/-! ## str.cpp: unsigned and signed integer to string

`uint_to_str` embeds the do-while loop of `uint_to_str` in
`src/gtatool/src/base/str.cpp` (lines 71-83): it repeatedly prepends the
character `'0' + x % 10` and divides `x` by 10, at least once.  The loop
is written with an explicit fuel argument (the C++ loop terminates
because `x` strictly decreases); `x + 1` steps always suffice. -/

def uint_to_str_go : Nat → Nat → List Char → List Char
  | 0, _, acc => acc
  | fuel + 1, x, acc =>
    let acc' := Char.ofNat (48 + x % 10) :: acc
    if x / 10 = 0 then acc' else uint_to_str_go fuel (x / 10) acc'

def uint_to_str (x : Nat) : List Char :=
  uint_to_str_go (x + 1) x []

/-- `int_to_str` from `src/gtatool/src/base/str.cpp` (lines 85-104).
The C++ loop computes each digit as `'0' - x % 10` when `x` is negative
and `'0' + x % 10` otherwise, divides `x` by 10 (C++ division truncates
toward zero, i.e. `Int.tdiv`/`Int.tmod`), and never negates `x`.
Finally a `'-'` is prepended when the input was negative. -/
def int_to_str_go (neg : Bool) : Nat → Int → List Char → List Char
  | 0, _, acc => acc
  | fuel + 1, x, acc =>
    let d : Int := if neg then 48 - x.tmod 10 else 48 + x.tmod 10
    let acc' := Char.ofNat d.toNat :: acc
    if x.tdiv 10 = 0 then acc' else int_to_str_go neg fuel (x.tdiv 10) acc'

def int_to_str (x : Int) : String :=
  if x < 0 then String.mk ('-' :: int_to_str_go true (x.natAbs + 1) x [])
  else String.mk (int_to_str_go false (x.natAbs + 1) x [])

/-- The successive values taken by the loop variable `x` of `int_to_str`
(the input itself, then each quotient until it reaches zero).  Used to
state that no intermediate value of the conversion leaves the range of
the machine integer type of the input. -/
def int_to_str_iterates_go : Nat → Int → List Int
  | 0, _ => []
  | fuel + 1, x =>
    x :: (if x.tdiv 10 = 0 then [] else int_to_str_iterates_go fuel (x.tdiv 10))

def int_to_str_iterates (x : Int) : List Int :=
  int_to_str_iterates_go (x.natAbs + 1) x

/-! ## str.cpp: sanitize, from(bool), to<bool> -/

namespace str

/-- `str::sanitize` (str.cpp lines 122-133): replace control characters
with `'?'` (`iscntrl` in the C locale: codes 0-31 and 127). -/
def sanitize (s : String) : String :=
  String.mk (s.data.map (fun c =>
    if c.toNat < 32 ∨ c.toNat = 127 then '?' else c))

/-- `str::from(bool x)` (str.cpp lines 137-140): returns `"0"` for
`true` and `"1"` for `false`. -/
def from_bool (x : Bool) : String :=
  if x then "0" else "1"

/-- One integer extraction of `std::istringstream` as used by
`str::_to<bool>` (str.cpp lines 209-220): with default flags the stream
skips leading whitespace and parses an optional sign followed by at
least one decimal digit.  Returns the parsed value and the unconsumed
rest of the input, or `none` on a parse failure. -/
def extract_int (l : List Char) : Option (Int × List Char) :=
  let l1 := l.dropWhile is_space_char
  let signAndRest : Int × List Char :=
    match l1 with
    | '-' :: rest => (-1, rest)
    | '+' :: rest => (1, rest)
    | rest => (1, rest)
  let ds := signAndRest.2.takeWhile is_digit_char
  if ds = [] then none
  else some (signAndRest.1 * (decVal ds : Nat), signAndRest.2.dropWhile is_digit_char)

/-- `str::to<bool>` = `str::_to<bool>` (str.cpp lines 209-222): extract
a value with `operator>>` (for `bool` without `boolalpha` this extracts
an integer and requires it to be 0 or 1), then fail unless the
extraction succeeded and consumed the whole string
(`is.fail() || !is.eof()`). -/
def to_bool (s : String) : Except String Bool :=
  match extract_int s.data with
  | some (v, rest) =>
    if rest = [] then
      if v = 0 then Except.ok false
      else if v = 1 then Except.ok true
      else Except.error ("cannot convert '" ++ (sanitize s).data.asString ++ "' to bool")
    else Except.error ("cannot convert '" ++ (sanitize s).data.asString ++ "' to bool")
  | none => Except.error ("cannot convert '" ++ (sanitize s).data.asString ++ "' to bool")

end str

/-! ## msg.cpp: the message filtering module

The process-wide configuration of `src/gtatool/src/base/msg.cpp`
(`_file`, `_level`, `_program_name`, `_category_name`) is modelled as an
explicit record; what a call writes to the configured output `FILE*` is
modelled as the `String` returned by the call (the empty string when
nothing is written). -/

namespace msg

inductive level_t
  | DBG | INF | WRN | ERR | REQ
deriving DecidableEq

/-- Numeric value of the `level_t` enum constant, in declaration order
(this is how C++ compares two enum values with `<`). -/
def level_t.toNat : level_t → Nat
  | .DBG => 0 | .INF => 1 | .WRN => 2 | .ERR => 3 | .REQ => 4

def level_lt (a b : level_t) : Bool :=
  decide (a.toNat < b.toNat)

structure config where
  level : level_t
  program_name : String
  category_name : String
deriving DecidableEq

/-- The `_level_prefixes` table of `msg::prefix` (msg.cpp line 110). -/
def level_pfx : level_t → String
  | .DBG => "[DBG] " | .INF => "[INF] " | .WRN => "[WRN] " | .ERR => "[ERR] " | .REQ => ""

/-- `msg::prefix` (msg.cpp lines 108-128). -/
def pfx (cfg : config) (level : level_t) : String :=
  if ¬cfg.program_name.isEmpty ∧ ¬cfg.category_name.isEmpty then
    cfg.program_name ++ ": " ++ level_pfx level ++ cfg.category_name ++ ": "
  else if ¬cfg.program_name.isEmpty ∧ cfg.category_name.isEmpty then
    cfg.program_name ++ ": " ++ level_pfx level
  else if cfg.program_name.isEmpty ∧ ¬cfg.category_name.isEmpty then
    level_pfx level ++ cfg.category_name ++ ": "
  else
    level_pfx level

/-- `msg::msg(level_t, const std::string &)` (msg.cpp lines 130-141):
below the configured minimum level nothing is written; otherwise the
prefix, the message and one `'\n'` are written. -/
def msg (cfg : config) (level : level_t) (s : String) : String :=
  if level_lt level cfg.level then ""
  else pfx cfg level ++ s ++ "\n"

/-- `msg::dbg` (msg.cpp lines 246-254): an early-out level check, then a
call to `msg::msg` (which checks again). -/
def dbg (cfg : config) (s : String) : String :=
  if level_lt .DBG cfg.level then "" else msg cfg .DBG s

/-- `msg::inf` (msg.cpp lines 296-304). -/
def inf (cfg : config) (s : String) : String :=
  if level_lt .INF cfg.level then "" else msg cfg .INF s

/-- `msg::wrn` (msg.cpp lines 346-354). -/
def wrn (cfg : config) (s : String) : String :=
  if level_lt .WRN cfg.level then "" else msg cfg .WRN s

/-- `msg::err` (msg.cpp lines 396-404). -/
def err (cfg : config) (s : String) : String :=
  if level_lt .ERR cfg.level then "" else msg cfg .ERR s

/-- `msg::req` (msg.cpp lines 446-449): no early-out; it calls
`msg::msg(REQ, s)` directly. -/
def req (cfg : config) (s : String) : String :=
  msg cfg .REQ s

end msg

/-! ## The GTA data model

`gta::header` comes from the external libgta codec (spec §3, §6): its
visible content is the ordered component list (type tag and byte size
per component), the ordered dimension list, and the compression mode. -/

inductive gta_type
  | int8 | uint8 | int16 | uint16 | int32 | uint32 | int64 | uint64
  | int128 | uint128 | float32 | float64 | float128 | blob
deriving DecidableEq

/-- Byte width of each scalar type tag; `none` for `blob`, whose width
is declared per component. -/
def gta_type.scalar_width : gta_type → Option Nat
  | .int8 => some 1 | .uint8 => some 1
  | .int16 => some 2 | .uint16 => some 2
  | .int32 => some 4 | .uint32 => some 4
  | .int64 => some 8 | .uint64 => some 8
  | .int128 => some 16 | .uint128 => some 16
  | .float32 => some 4 | .float64 => some 8 | .float128 => some 16
  | .blob => none

inductive gta_compression
  | none | zlib | bzip2 | xz
deriving DecidableEq

structure gta_header where
  components : List (gta_type × Nat)
  dimensions : List Nat
  compression : gta_compression
deriving DecidableEq

/-- `gta::header::element_size()`: the sum of the component sizes. -/
def gta_header.element_size (h : gta_header) : Nat :=
  (h.components.map Prod.snd).sum

/-- `gta::header::elements()`: the product of the dimension sizes (zero
for a header without dimensions). -/
def gta_header.elements (h : gta_header) : Nat :=
  if h.dimensions.isEmpty then 0 else (h.dimensions.foldl (· * ·) 1)

/-- `gta::header::data_size()`: total element data size in bytes. -/
def gta_header.data_size (h : gta_header) : Nat :=
  h.elements * h.element_size

/-- Byte offset of component `i` inside one element: the sum of the
widths of the preceding components. -/
def gta_header.component_offset (h : gta_header) (i : Nat) : Nat :=
  ((h.components.take i).map Prod.snd).sum

/-- The three error kinds of spec §7. -/
inductive exc_t
  | FormatError | FramingError | IOError
deriving DecidableEq

/-! ## Endianness codec (spec §4.2)

The implementation file of `lib.h` is not part of the given sources, so
the two swap functions are modelled from the spec. -/

/-- The per-component byte-order action: reversal for scalar kinds,
identity for blob kinds. -/
def component_swap (t : gta_type) (bytes : List Nat) : List Nat :=
  if t = gta_type.blob then bytes else bytes.reverse

/-- Modelled from the spec: `swap_component_endianness(header, i,
component)` (declared in lib.h line 91, implementation not in the given
sources) "reverses byte order of one component in place for multi-byte
scalar kinds; no-op for blob/byte-array kinds".  `component` is the byte
buffer of component `i` of one element. -/
def swap_component_endianness (header : gta_header) (i : Nat) (component : List Nat) :
    List Nat :=
  match header.components.get? i with
  | some (t, _) => component_swap t component
  | none => component

/-- Modelled from the spec: helper of `swap_element_endianness`
applying the per-component swap to each component's slice in turn. -/
def swap_element_go : List (gta_type × Nat) → List Nat → List Nat
  | [], bytes => bytes
  | (t, w) :: cs, bytes =>
    component_swap t (bytes.take w) ++ swap_element_go cs (bytes.drop w)

/-- Modelled from the spec: `swap_element_endianness(header, element)`
(declared in lib.h line 92, implementation not in the given sources)
"applies this to every component at its correct offset within one
element". -/
def swap_element_endianness (header : gta_header) (element : List Nat) : List Nat :=
  swap_element_go header.components element

/-! ## Type codec (spec §4.1)

Modelled from the spec: `type_from_string` / `type_to_string` (declared
in lib.h lines 79-80, implementation not in the given sources) "map a
textual scalar-type name (integer/float kind+width, or fixed-width
blob) to `\x7btype tag, byte width\x7d` and back; fails with
`FormatError` on unknown names or non-positive blob widths". -/

/-- The table of scalar type names with their tags and byte widths. -/
def scalar_type_names : List (String × gta_type × Nat) :=
  [("int8", .int8, 1), ("uint8", .uint8, 1),
   ("int16", .int16, 2), ("uint16", .uint16, 2),
   ("int32", .int32, 4), ("uint32", .uint32, 4),
   ("int64", .int64, 8), ("uint64", .uint64, 8),
   ("int128", .int128, 16), ("uint128", .uint128, 16),
   ("float32", .float32, 4), ("float64", .float64, 8),
   ("float128", .float128, 16)]

/-- Modelled from the spec: `type_to_string(t, size)`.  Scalar tags
render as their table name; a blob renders as `"blob"` followed by the
decimal width (printed with the `uint_to_str` of str.cpp). -/
def type_to_string (t : gta_type) (size : Nat) : String :=
  match (scalar_type_names.find? (fun p => p.2.1 == t)).map Prod.fst with
  | some name => name
  | none => "blob" ++ String.mk (uint_to_str size)

/-- Modelled from the spec: `type_from_string(s)`.  A scalar table name
yields its tag and width; `"blob"` followed by a decimal number yields a
blob of that width, rejecting a non-positive width with `FormatError`;
every other string fails with `FormatError`. -/
def type_from_string (s : String) : Except exc_t (gta_type × Nat) :=
  match scalar_type_names.find? (fun p => p.1 == s) with
  | some p => Except.ok p.2
  | none =>
    match s.data with
    | 'b' :: 'l' :: 'o' :: 'b' :: ds =>
      if ds ≠ [] ∧ ds.all is_digit_char then
        if 0 < decVal ds then Except.ok (gta_type.blob, decVal ds)
        else Except.error exc_t.FormatError
      else Except.error exc_t.FormatError
    | _ => Except.error exc_t.FormatError

/-- A `(type tag, byte width)` pair is valid when the width is the
scalar width of the tag, or the tag is `blob` with a positive width. -/
def valid_type_pair (t : gta_type) (w : Nat) : Prop :=
  t.scalar_width = some w ∨ (t = gta_type.blob ∧ 0 < w)

instance (t : gta_type) (w : Nat) : Decidable (valid_type_pair t w) := by
  unfold valid_type_pair; infer_instance

/-! ## Array loop (spec §4.4): reading across input files

Modelled from the spec: `array_loop_t::read` (declared in lib.h line
167, implementation not in the given sources) "reads the next array
header from the current source; on EOF of a named file, closes it and
advances to the next filename, repeating until an array is found or all
sources exhaust (returns 'no more arrays', terminal state)".  The input
sources are modelled as a list of files, each carrying its name, the
per-file index of the next array, and its remaining array headers. -/

structure al_source where
  name : String
  file_index : Nat
  arrays : List gta_header
deriving DecidableEq

/-- The spec's virtual name `source[index]` of an array. -/
def al_vname (name : String) (i : Nat) : String :=
  name ++ "[" ++ String.mk (uint_to_str i) ++ "]"

/-- One `array_loop_t::read` call: the produced header and virtual name
(`none` = "no more arrays"), and the successor state. -/
def al_read : List al_source → Option (gta_header × String) × List al_source
  | [] => (none, [])
  | ⟨_, _, []⟩ :: rest => al_read rest
  | ⟨n, i, h :: hs⟩ :: rest =>
    (some (h, al_vname n i), ⟨n, i + 1, hs⟩ :: rest)

/-- Total number of arrays remaining in the input sources. -/
def al_total (files : List al_source) : Nat :=
  (files.map (fun f => f.arrays.length)).sum

/-- `k` successive `array_loop_t::read` calls: the list of results of
the successful calls, and the state after the calls. -/
def al_run : Nat → List al_source → List (gta_header × String) × List al_source
  | 0, files => ([], files)
  | k + 1, files =>
    match al_read files with
    | (none, files') => ([], files')
    | (some x, files') =>
      let r := al_run k files'
      (x :: r.1, r.2)

/-! ## Array loop (spec §4.4): finish

Modelled from the spec: `array_loop_t::finish` (declared in lib.h line
201, implementation not in the given sources) "closes any still-open
descriptors exactly once, idempotent; omitted stdio streams are left
untouched".  A descriptor is either a named file (with an id) or one of
the shared stdio streams. -/

inductive descriptor
  | named (id : Nat)
  | stdio
deriving DecidableEq

structure al_files where
  file_in : Option descriptor
  file_out : Option descriptor
deriving DecidableEq

/-- The close events performed for one held descriptor: named files are
closed, stdio streams are left untouched. -/
def close_events : Option descriptor → List descriptor
  | some (descriptor.named i) => [descriptor.named i]
  | _ => []

/-- Modelled from the spec: one `finish()` call.  Returns the successor
state (no descriptors held) and the list of close events it performed. -/
def al_finish (st : al_files) : al_files × List descriptor :=
  (⟨none, none⟩, close_events st.file_in ++ close_events st.file_out)

/-! ## Element loop (spec §4.3)

Modelled from the spec: `element_loop_t` (declared in lib.h lines
101-126, implementation not in the given sources).  The state holds the
input array's data bytes and the read position (in elements), plus the
bytes already flushed to the output file and the not-yet-flushed output
buffer.  `S` is the element size in bytes and `B` the byte capacity of
the shared transfer buffer. -/

structure el_state where
  input : List Nat
  pos : Nat
  flushed : List Nat
  outbuf : List Nat
deriving DecidableEq

/-- Modelled from the spec: the fixed ceiling `MAX_IOBUF_SIZE` bounding
the shared buffer (lib.h line 104; the concrete value is not in the
given sources). -/
def max_iobuf_size : Nat := 4194304

/-- Modelled from the spec: `element_loop_t::start` resets both cursors
to element 0 and sizes the shared buffer to
`min(MAX_IOBUF_SIZE, elementSize × batch)`. -/
def el_start (input : List Nat) : el_state :=
  ⟨input, 0, [], []⟩

def el_bufsize (S batch : Nat) : Nat :=
  min max_iobuf_size (S * batch)

/-- Modelled from the spec: `element_loop_t::read(n)` returns the next
`n` consecutive elements and advances the input cursor; a short read
(truncated input) fails with `IOError`. -/
def el_read (S n : Nat) (st : el_state) : Except exc_t (List Nat × el_state) :=
  if (st.pos + n) * S ≤ st.input.length then
    Except.ok ((st.input.drop (st.pos * S)).take (n * S), { st with pos := st.pos + n })
  else Except.error exc_t.IOError

/-- Modelled from the spec: `element_loop_t::write(element, n)` appends
the bytes to the output buffer, flushing to the destination whenever the
buffer is full. -/
def el_write (B : Nat) (bytes : List Nat) (st : el_state) : el_state :=
  let buf := st.outbuf ++ bytes
  if B ≤ buf.length then { st with flushed := st.flushed ++ buf, outbuf := [] }
  else { st with outbuf := buf }

/-- Modelled from the spec: the final flush performed on
destruction/finish of the element loop. -/
def el_finish (st : el_state) : el_state :=
  { st with flushed := st.flushed ++ st.outbuf, outbuf := [] }

/-- Transferring `n` elements one by one: each is read with
`element_loop_t::read` and written back with `element_loop_t::write`. -/
def el_transfer (S B : Nat) : Nat → el_state → Except exc_t el_state
  | 0, st => Except.ok st
  | n + 1, st =>
    match el_read S 1 st with
    | Except.error e => Except.error e
    | Except.ok (e, st') => el_transfer S B n (el_write B e st')

/-! ## Temp-file buffering (spec §4.5)

Modelled from the spec: `buffer_data(header, f, buf_header, buf_f)`
(declared in lib.h line 215, implementation not in the given sources)
"reads one array's element data sequentially from a non-seekable stream
into a freshly created anonymous temporary file; produces `bufHeader`
(same component/dimension layout, uncompressed) and `bufF` positioned at
offset 0", leaving `f` positioned at the first byte after the data.  A
`FILE*` stream is modelled as its byte content plus the current
position. -/

structure cfile where
  data : List Nat
  pos : Nat
deriving DecidableEq

def buffer_data (header : gta_header) (f : cfile) :
    Except exc_t (gta_header × cfile × cfile) :=
  let n := header.data_size
  if f.pos + n ≤ f.data.length then
    Except.ok ({ header with compression := gta_compression.none },
               { f with pos := f.pos + n },
               ⟨(f.data.drop f.pos).take n, 0⟩)
  else Except.error exc_t.IOError

/-! ## to-raw.cpp: the data-transfer part of gtatool_to_raw

From `src/gtatool/src/conv-raw/to-raw.cpp` lines 99-121: after the
header is read, a compression mode other than `gta::none` throws
(before any element is transferred); otherwise every element is read,
endianness-swapped unless the requested byte order is the host order,
and written to the raw output file.  The result is the command's
outcome together with the bytes written to the output file. -/

def to_raw_go (hdr : gta_header) (host_endianness : Bool) :
    Nat → List Nat → List Nat → Except (exc_t × String) Unit × List Nat
  | 0, _, out => (Except.ok (), out)
  | k + 1, fi, out =>
    if hdr.element_size ≤ fi.length then
      let element := fi.take hdr.element_size
      let element := if host_endianness then element
                     else swap_element_endianness hdr element
      to_raw_go hdr host_endianness k (fi.drop hdr.element_size) (out ++ element)
    else (Except.error (exc_t.FramingError, "unexpected end of file"), out)

def gtatool_to_raw (hdr : gta_header) (ifilename : String) (host_endianness : Bool)
    (fi : List Nat) : Except (exc_t × String) Unit × List Nat :=
  if hdr.compression ≠ gta_compression.none then
    (Except.error (exc_t.FormatError,
      "cannot export " ++ ifilename ++
      ": currently only uncompressed GTAs can be exported to raw files"), [])
  else to_raw_go hdr host_endianness hdr.elements fi []

/-! ## Concrete instances used to exercise the theorems -/

/-- A one-component `int32` array with 1 element (file A, array 0). -/
def demo_hA0 : gta_header := ⟨[(gta_type.int32, 4)], [1], gta_compression.none⟩

/-- A one-component `int32` array with 2 elements (file A, array 1). -/
def demo_hA1 : gta_header := ⟨[(gta_type.int32, 4)], [2], gta_compression.none⟩

/-- A one-component `int32` array with 3 elements (file B, array 0). -/
def demo_hB0 : gta_header := ⟨[(gta_type.int32, 4)], [3], gta_compression.none⟩

/-- Input list [A (2 arrays), B (1 array)] from the spec's multi-file
iteration property. -/
def demo_files : List al_source := [⟨"A", 0, [demo_hA0, demo_hA1]⟩, ⟨"B", 0, [demo_hB0]⟩]

/-- Header of a 10-element array with 8-byte elements. -/
def demo_h10x8 : gta_header := ⟨[(gta_type.uint64, 8)], [10], gta_compression.none⟩

/-- A header with one scalar and one blob component. -/
def demo_hdr_swap : gta_header :=
  ⟨[(gta_type.int32, 4), (gta_type.blob, 2)], [1], gta_compression.none⟩

/-- A compressed variant of the 10x8 header. -/
def demo_hdr_zlib : gta_header := ⟨[(gta_type.uint16, 2)], [2], gta_compression.zlib⟩

/-! # Theorems -/

/-! ## C7: operations requiring uncompressed data reject compressed arrays -/

/-- C7: when an operation requires uncompressed data and the array
header declares a compression mode other than `none`, the operation
fails with a `FormatError` naming the offending input and transfers no
element data; in particular `gtatool_to_raw` throws after reading the
header, before writing any element, whenever
`hdr.compression() != gta::none`. -/
theorem to_raw_rejects_compressed (hdr : gta_header) (ifilename : String)
    (host_endianness : Bool) (fi : List Nat)
    (hcomp : hdr.compression ≠ gta_compression.none) :
    gtatool_to_raw hdr ifilename host_endianness fi =
      (Except.error (exc_t.FormatError,
        "cannot export " ++ ifilename ++
        ": currently only uncompressed GTAs can be exported to raw files"), []) := by
  unfold gtatool_to_raw
  simp [hcomp]

theorem to_raw_rejects_compressed_witness :
    gtatool_to_raw demo_hdr_zlib "in.gta" true [1, 2, 3, 4] =
      (Except.error (exc_t.FormatError,
        "cannot export in.gta: currently only uncompressed GTAs can be exported to raw files"),
       []) :=
  (to_raw_rejects_compressed demo_hdr_zlib "in.gta" true [1, 2, 3, 4] (by decide)).trans
    (by decide)

/-! ## C8: str::from(bool) and the inverted boolean round-trip -/

/-- C8: for every boolean `b`, `str::from(b)` returns `"0"` when `b` is
true and `"1"` when `b` is false, so the round-trip
`str::to<bool>(str::from(b))` yields the negation of `b`. -/
theorem from_bool_roundtrip_negates (b : Bool) :
    str.from_bool b = (if b then "0" else "1")
    ∧ str.to_bool (str.from_bool b) = Except.ok (!b) := by
  cases b <;> exact ⟨rfl, by decide⟩

theorem from_bool_roundtrip_negates_witness :
    str.to_bool (str.from_bool true) = Except.ok false :=
  (from_bool_roundtrip_negates true).2

/-! ## C10: message level filtering -/

/-- C10: `msg::msg(l, s)` writes nothing when `l` is strictly below the
configured minimum level, and otherwise writes exactly the level prefix
followed by `s` and one newline; the same filtering is kept by every
emitting entry point (`dbg`, `inf`, `wrn`, `err`, `req`). -/
theorem msg_level_filtering (cfg : msg.config) (l : msg.level_t) (s : String) :
    (msg.level_lt l cfg.level = true → msg.msg cfg l s = "")
    ∧ (msg.level_lt l cfg.level = false →
        msg.msg cfg l s = msg.pfx cfg l ++ s ++ "\n")
    ∧ msg.dbg cfg s = msg.msg cfg msg.level_t.DBG s
    ∧ msg.inf cfg s = msg.msg cfg msg.level_t.INF s
    ∧ msg.wrn cfg s = msg.msg cfg msg.level_t.WRN s
    ∧ msg.err cfg s = msg.msg cfg msg.level_t.ERR s
    ∧ msg.req cfg s = msg.msg cfg msg.level_t.REQ s := by
  refine ⟨fun h => by simp [msg.msg, h], fun h => by simp [msg.msg, h], ?_, ?_, ?_, ?_, rfl⟩ <;>
    simp only [msg.dbg, msg.inf, msg.wrn, msg.err, msg.msg] <;>
    split <;> simp_all

theorem msg_level_filtering_witness :
    msg.msg ⟨msg.level_t.WRN, "gta", ""⟩ msg.level_t.INF "hello" = ""
    ∧ msg.msg ⟨msg.level_t.WRN, "gta", ""⟩ msg.level_t.ERR "hello" = "gta: [ERR] hello\n" := by
  refine ⟨(msg_level_filtering ⟨msg.level_t.WRN, "gta", ""⟩ msg.level_t.INF "hello").1 (by decide),
    ((msg_level_filtering ⟨msg.level_t.WRN, "gta", ""⟩ msg.level_t.ERR "hello").2.1
      (by decide)).trans (by decide)⟩

/-! ## C4: finish() is idempotent and closes each descriptor once -/

/-- C4: calling `array_loop_t::finish` a second time after a first
successful `finish` produces no error and performs no further close:
each named descriptor held by the loop is closed exactly once over the
two calls, and stdio streams used in place of named files are left
untouched (never closed). -/
theorem array_loop_finish_idempotent (st : al_files) :
    (al_finish (al_finish st).1).2 = []
    ∧ (al_finish (al_finish st).1).1 = (al_finish st).1
    ∧ (∀ i, ((al_finish st).2 ++ (al_finish (al_finish st).1).2).count (descriptor.named i)
        = (if st.file_in = some (descriptor.named i) then 1 else 0)
          + (if st.file_out = some (descriptor.named i) then 1 else 0))
    ∧ descriptor.stdio ∉ (al_finish st).2 ++ (al_finish (al_finish st).1).2 := by
  obtain ⟨fin, fout⟩ := st
  refine ⟨rfl, rfl, fun i => ?_, ?_⟩ <;>
    rcases fin with _ | ⟨_ | j⟩ <;> rcases fout with _ | ⟨_ | k⟩ <;>
    simp [al_finish, close_events, List.count_cons] <;>
    split_ifs <;> simp_all

theorem array_loop_finish_idempotent_witness :
    (al_finish (al_finish ⟨some (descriptor.named 3), some descriptor.stdio⟩).1).2 = []
    ∧ ((al_finish (⟨some (descriptor.named 3), some descriptor.stdio⟩ : al_files)).2 ++
        (al_finish (al_finish
          (⟨some (descriptor.named 3), some descriptor.stdio⟩ : al_files)).1).2).count
        (descriptor.named 3) = 1 := by
  have h := array_loop_finish_idempotent ⟨some (descriptor.named 3), some descriptor.stdio⟩
  exact ⟨h.1, (h.2.2.1 3).trans (by decide)⟩

/-! ## C9 helper lemmas: the digit loops of str.cpp -/

theorem uint_to_str_go_append (fuel : Nat) :
    ∀ (n : Nat) (acc : List Char),
      uint_to_str_go fuel n acc = uint_to_str_go fuel n [] ++ acc := by
  induction fuel with
  | zero => intro n acc; rfl
  | succ fuel ih =>
    intro n acc
    simp only [uint_to_str_go]
    split
    · rfl
    · rw [ih (n / 10) (Char.ofNat (48 + n % 10) :: acc),
          ih (n / 10) [Char.ofNat (48 + n % 10)]]
      simp

theorem uint_to_str_go_fuel :
    ∀ (fuel : Nat) (n : Nat) (acc : List Char) (fuel' : Nat), n < fuel → n < fuel' →
      uint_to_str_go fuel n acc = uint_to_str_go fuel' n acc := by
  intro fuel
  induction fuel with
  | zero => intro n acc fuel' h; omega
  | succ fuel ih =>
    intro n acc fuel' h h'
    match fuel', h' with
    | f' + 1, _ =>
      simp only [uint_to_str_go]
      split
      · rfl
      · rename_i hne
        have h10 : 10 ≤ n := by
          by_contra hlt
          exact hne (Nat.div_eq_of_lt (by omega))
        have hdiv : n / 10 < n := Nat.div_lt_self (by omega) (by omega)
        exact ih (n / 10) _ f' (by omega) (by omega)

theorem uint_to_str_eq (n : Nat) :
    uint_to_str n = if n < 10 then [Char.ofNat (48 + n)]
                    else uint_to_str (n / 10) ++ [Char.ofNat (48 + n % 10)] := by
  unfold uint_to_str
  simp only [uint_to_str_go]
  by_cases h : n < 10
  · rw [if_pos (Nat.div_eq_of_lt h), if_pos h, Nat.mod_eq_of_lt h]
  · have h0 : ¬ n / 10 = 0 := by
      intro hz
      exact h (by have := (Nat.div_eq_zero_iff (by omega : (0:Nat) < 10)).mp hz; omega)
    rw [if_neg h0, if_neg h]
    have hdiv : n / 10 < n := Nat.div_lt_self (by omega) (by omega)
    rw [uint_to_str_go_fuel n (n / 10) _ (n / 10 + 1) (by omega) (by omega),
        uint_to_str_go_append]
    rfl

theorem char_ofNat_digit_toNat (d : Nat) (hd : d < 10) :
    (Char.ofNat (48 + d)).toNat = 48 + d := by
  interval_cases d <;> decide

theorem decVal_append_digit (l : List Char) (c : Char) :
    decVal (l ++ [c]) = 10 * decVal l + (c.toNat - 48) := by
  simp [decVal, List.foldl_append]

theorem decVal_uint_to_str (n : Nat) : decVal (uint_to_str n) = n := by
  induction n using Nat.strong_induction_on with
  | _ n ih =>
    rw [uint_to_str_eq]
    split
    · rename_i h
      simp only [decVal, List.foldl_cons, List.foldl_nil]
      rw [char_ofNat_digit_toNat n h]
      omega
    · rename_i h
      rw [decVal_append_digit,
          ih (n / 10) (Nat.div_lt_self (by omega) (by omega)),
          char_ofNat_digit_toNat (n % 10) (Nat.mod_lt _ (by omega))]
      omega

theorem uint_to_str_digits (n : Nat) :
    (uint_to_str n).all is_digit_char = true := by
  induction n using Nat.strong_induction_on with
  | _ n ih =>
    rw [uint_to_str_eq]
    split
    · rename_i h
      simp only [List.all_cons, List.all_nil, Bool.and_true, is_digit_char]
      rw [char_ofNat_digit_toNat n h]
      simp
      omega
    · rename_i h
      rw [List.all_append]
      rw [ih (n / 10) (Nat.div_lt_self (by omega) (by omega))]
      simp only [Bool.true_and, List.all_cons, List.all_nil, Bool.and_true, is_digit_char]
      rw [char_ofNat_digit_toNat (n % 10) (Nat.mod_lt _ (by omega))]
      simp
      omega

theorem uint_to_str_ne_nil (n : Nat) : uint_to_str n ≠ [] := by
  rw [uint_to_str_eq]
  split <;> simp

theorem uint_to_str_head (n : Nat) (hn : n ≠ 0) :
    (uint_to_str n).head? ≠ some '0' := by
  induction n using Nat.strong_induction_on with
  | _ n ih =>
    rw [uint_to_str_eq]
    split
    · rename_i h
      intro hc
      simp only [List.head?_cons, Option.some.injEq] at hc
      have h48 := congrArg Char.toNat hc
      rw [char_ofNat_digit_toNat n h] at h48
      have : ('0' : Char).toNat = 48 := by decide
      omega
    · rename_i h
      obtain ⟨a, t, he⟩ := List.exists_cons_of_ne_nil (uint_to_str_ne_nil (n / 10))
      have hih := ih (n / 10) (Nat.div_lt_self (by omega) (by omega))
          (by
            intro hz
            exact h ((Nat.div_eq_zero_iff (by omega : (0:Nat) < 10)).mp hz))
      rw [he] at hih ⊢
      simpa using hih

theorem int_go_ofNat (fuel : Nat) :
    ∀ (n : Nat) (acc : List Char),
      int_to_str_go false fuel (Int.ofNat n) acc = uint_to_str_go fuel n acc := by
  induction fuel with
  | zero => intro n acc; rfl
  | succ fuel ih =>
    intro n acc
    simp only [int_to_str_go, uint_to_str_go, Bool.false_eq_true, if_false]
    rw [show (48 + Int.tmod (Int.ofNat n) 10).toNat = 48 + n % 10 from rfl,
        show Int.tdiv (Int.ofNat n) 10 = Int.ofNat (n / 10) from rfl]
    by_cases h0 : n / 10 = 0
    · rw [if_pos (by rw [h0]; rfl), if_pos h0]
    · rw [if_neg (fun hc => h0 (by
        rw [Int.ofNat_eq_natCast] at hc
        omega)), if_neg h0]
      exact ih (n / 10) _

theorem int_go_negSucc (fuel : Nat) :
    ∀ (m : Nat) (acc : List Char),
      int_to_str_go true fuel (Int.negSucc m) acc = uint_to_str_go fuel (m + 1) acc := by
  induction fuel with
  | zero => intro m acc; rfl
  | succ fuel ih =>
    intro m acc
    simp only [int_to_str_go, uint_to_str_go, if_true]
    rw [show Int.tmod (Int.negSucc m) 10 = -(↑((m + 1) % 10) : Int) from rfl,
        sub_neg_eq_add,
        show ((48 : Int) + (↑((m + 1) % 10) : Int)).toNat = 48 + (m + 1) % 10 from rfl,
        show Int.tdiv (Int.negSucc m) 10 = -(↑((m + 1) / 10) : Int) from rfl]
    by_cases h0 : (m + 1) / 10 = 0
    · rw [if_pos (by rw [h0]; rfl), if_pos h0]
    · rw [if_neg (fun hc => h0 (by omega)), if_neg h0]
      have hns : -(↑((m + 1) / 10) : Int) = Int.negSucc ((m + 1) / 10 - 1) := by
        rw [Int.negSucc_eq]
        omega
      rw [hns]
      rw [ih ((m + 1) / 10 - 1) (Char.ofNat (48 + (m + 1) % 10) :: acc)]
      congr 1
      omega

theorem int_to_str_eq (x : Int) :
    int_to_str x = String.mk ((if x < 0 then ['-'] else []) ++ uint_to_str x.natAbs) := by
  unfold int_to_str uint_to_str
  rcases x with n | m
  · have hneg : ¬ (Int.ofNat n < 0) := by rw [Int.ofNat_eq_natCast]; omega
    rw [if_neg hneg, if_neg hneg,
        show (Int.ofNat n).natAbs = n from rfl,
        int_go_ofNat]
    simp
  · have hneg : Int.negSucc m < 0 := Int.negSucc_lt_zero m
    rw [if_pos hneg, if_pos hneg,
        show (Int.negSucc m).natAbs = m + 1 from rfl,
        int_go_negSucc]
    simp

theorem int_iterates_core (fuel : Nat) :
    ∀ (x : Int), ∀ y ∈ int_to_str_iterates_go fuel x,
      y.natAbs ≤ x.natAbs ∧ (0 ≤ x → 0 ≤ y) ∧ (x ≤ 0 → y ≤ 0) := by
  induction fuel with
  | zero => intro x y hy; simp [int_to_str_iterates_go] at hy
  | succ fuel ih =>
    intro x y hy
    simp only [int_to_str_iterates_go] at hy
    rcases List.mem_cons.mp hy with rfl | hy'
    · omega
    · have hytail : y ∈ int_to_str_iterates_go fuel (x.tdiv 10) := by
        rcases Decidable.em (x.tdiv 10 = 0) with h0 | h0
        · rw [if_pos h0] at hy'; simp at hy'
        · rwa [if_neg h0] at hy'
      have hb := ih (x.tdiv 10) y hytail
      have habs : (x.tdiv 10).natAbs ≤ x.natAbs := by
        rw [Int.natAbs_tdiv]
        exact Nat.div_le_self _ _
      have hpos : 0 ≤ x → 0 ≤ x.tdiv 10 := fun hx => Int.tdiv_nonneg hx (by omega)
      have hneg : x ≤ 0 → x.tdiv 10 ≤ 0 := by
        intro hx
        have h1 : 0 ≤ (-x).tdiv 10 := Int.tdiv_nonneg (by omega) (by omega)
        rw [Int.neg_tdiv] at h1
        omega
      omega

theorem int_iterates_bound (x : Int) :
    ∀ y ∈ int_to_str_iterates x, min x 0 ≤ y ∧ y ≤ max x 0 := by
  intro y hy
  have h := int_iterates_core _ x y hy
  refine ⟨min_le_iff.mpr ?_, le_max_iff.mpr ?_⟩ <;> omega

/-! ## C9: int_to_str is the exact decimal representation -/

/-- C9: for every signed integer `x` (including the type's minimum
value), `int_to_str x` is the exact decimal representation of `x`: the
decimal digits of `|x|` (digit characters only, no leading zero, value
exactly `|x|`) preceded by `'-'` exactly when `x` is negative; and every
value taken by the loop variable lies between `min x 0` and `max x 0`,
so the digit extraction never negates `x` and no intermediate
computation can overflow the machine integer range of the input. -/
theorem int_to_str_exact_decimal (x : Int) :
    int_to_str x = String.mk ((if x < 0 then ['-'] else []) ++ uint_to_str x.natAbs)
    ∧ decVal (uint_to_str x.natAbs) = x.natAbs
    ∧ (uint_to_str x.natAbs).all is_digit_char = true
    ∧ (x ≠ 0 → (uint_to_str x.natAbs).head? ≠ some '0')
    ∧ (∀ y ∈ int_to_str_iterates x, min x 0 ≤ y ∧ y ≤ max x 0) :=
  ⟨int_to_str_eq x, decVal_uint_to_str _, uint_to_str_digits _,
   fun hx => uint_to_str_head _ (Int.natAbs_ne_zero.mpr hx),
   int_iterates_bound x⟩

theorem int_to_str_exact_decimal_witness :
    int_to_str (-9223372036854775808) = "-9223372036854775808"
    ∧ decVal (uint_to_str 9223372036854775808) = 9223372036854775808 := by
  have h := int_to_str_exact_decimal (-9223372036854775808)
  exact ⟨h.1.trans (by decide), h.2.1⟩

/-! ## C1 helper lemmas: endianness swapping at component offsets -/

theorem component_swap_length (t : gta_type) (bytes : List Nat) :
    (component_swap t bytes).length = bytes.length := by
  unfold component_swap
  split <;> simp

theorem swap_element_go_slice :
    ∀ (cs : List (gta_type × Nat)) (bytes : List Nat) (i : Nat) (t : gta_type) (w : Nat),
      cs.get? i = some (t, w) →
      (cs.map Prod.snd).sum ≤ bytes.length →
      ((swap_element_go cs bytes).drop (((cs.take i).map Prod.snd).sum)).take w
        = component_swap t ((bytes.drop (((cs.take i).map Prod.snd).sum)).take w) := by
  intro cs
  induction cs with
  | nil => intro bytes i t w hc; simp at hc
  | cons c cs' ih =>
    intro bytes i t w hc hlen
    obtain ⟨t0, w0⟩ := c
    simp only [List.map_cons, List.sum_cons] at hlen
    have hw0 : (bytes.take w0).length = w0 := by
      rw [List.length_take]
      omega
    have hswap0 : (component_swap t0 (bytes.take w0)).length = w0 := by
      rw [component_swap_length]; exact hw0
    match i, hc with
    | 0, hc =>
      simp only [List.get?_cons_zero, Option.some.injEq, Prod.mk.injEq] at hc
      obtain ⟨rfl, rfl⟩ := hc
      simp only [List.take_zero, List.map_nil, List.sum_nil, List.drop_zero,
                 swap_element_go]
      rw [List.take_left' hswap0]
    | i' + 1, hc =>
      simp only [List.get?_cons_succ] at hc
      simp only [List.take_succ_cons, List.map_cons, List.sum_cons, swap_element_go]
      have hd : ∀ k, (component_swap t0 (bytes.take w0) ++ swap_element_go cs' (bytes.drop w0)).drop (w0 + k)
          = (swap_element_go cs' (bytes.drop w0)).drop k := by
        intro k
        have := @List.drop_append _ (component_swap t0 (bytes.take w0))
          (swap_element_go cs' (bytes.drop w0)) k
        rwa [hswap0] at this
      rw [hd]
      rw [ih (bytes.drop w0) i' t w hc (by simp; omega)]
      rw [List.drop_drop]

/-! ## C1: endianness swapping -/

/-- C1: for every array header and element buffer,
`swap_component_endianness` reverses the byte order of a multi-byte
scalar component and leaves blob components unchanged, and
`swap_element_endianness` applies the per-component swap to every
component at its correct offset inside one element. -/
theorem swap_endianness_correct (h : gta_header) (i : Nat) (t : gta_type) (w : Nat)
    (bytes element : List Nat)
    (hc : h.components.get? i = some (t, w))
    (hlen : h.element_size ≤ element.length) :
    (t ≠ gta_type.blob → swap_component_endianness h i bytes = bytes.reverse)
    ∧ (t = gta_type.blob → swap_component_endianness h i bytes = bytes)
    ∧ ((swap_element_endianness h element).drop (h.component_offset i)).take w
        = component_swap t ((element.drop (h.component_offset i)).take w) := by
  refine ⟨?_, ?_, ?_⟩
  · intro ht
    unfold swap_component_endianness
    rw [hc]
    simp [component_swap, ht]
  · intro ht
    unfold swap_component_endianness
    rw [hc]
    simp [component_swap, ht]
  · unfold swap_element_endianness gta_header.component_offset
    exact swap_element_go_slice h.components element i t w hc hlen

theorem swap_endianness_correct_witness :
    swap_component_endianness demo_hdr_swap 0 [1, 2, 3, 4] = [4, 3, 2, 1]
    ∧ swap_component_endianness demo_hdr_swap 1 [5, 6] = [5, 6] := by
  have h1 := swap_endianness_correct demo_hdr_swap 0 gta_type.int32 4
    [1, 2, 3, 4] [1, 2, 3, 4, 5, 6] (by decide) (by decide)
  have h2 := swap_endianness_correct demo_hdr_swap 1 gta_type.blob 2
    [5, 6] [1, 2, 3, 4, 5, 6] (by decide) (by decide)
  exact ⟨(h1.1 (by decide)).trans (by decide), h2.2.1 rfl⟩

/-! ## C2 helper lemmas: the array loop read sequence -/

theorem al_read_none :
    ∀ (files files' : List al_source), al_read files = (none, files') →
      al_total files = 0 := by
  intro files
  induction files with
  | nil => intro files' _; rfl
  | cons f rest ih =>
    intro files' h
    obtain ⟨n, i, arrs⟩ := f
    cases arrs with
    | nil =>
      simp only [al_read] at h
      simp only [al_total, List.map_cons, List.sum_cons, List.length_nil]
      have := ih files' h
      simp only [al_total] at this
      omega
    | cons h0 hs => simp [al_read] at h

theorem al_read_some_step :
    ∀ (files : List al_source) (hd : gta_header) (nm : String) (files' : List al_source),
      al_read files = (some (hd, nm), files') →
      al_total files = al_total files' + 1
      ∧ (files.map (fun f => f.arrays)).flatten
          = hd :: (files'.map (fun f => f.arrays)).flatten := by
  intro files
  induction files with
  | nil => intro hd nm files' h; simp [al_read] at h
  | cons f rest ih =>
    intro hd nm files' h
    obtain ⟨n, i, arrs⟩ := f
    cases arrs with
    | nil =>
      simp only [al_read] at h
      have := ih hd nm files' h
      simp only [al_total, List.map_cons, List.sum_cons, List.length_nil,
                 List.flatten_cons, List.nil_append] at this ⊢
      exact ⟨by omega, this.2⟩
    | cons h0 hs =>
      simp only [al_read, Prod.mk.injEq, Option.some.injEq] at h
      obtain ⟨⟨rfl, rfl⟩, rfl⟩ := h
      refine ⟨?_, ?_⟩
      · simp only [al_total, List.map_cons, List.sum_cons, List.length_cons]
        omega
      · simp only [List.map_cons, List.flatten_cons, List.cons_append]

theorem al_run_flatten :
    ∀ (total : Nat) (files : List al_source), al_total files = total →
      ((al_run total files).1.map Prod.fst = (files.map (fun f => f.arrays)).flatten)
      ∧ al_total (al_run total files).2 = 0 := by
  intro total
  induction total with
  | zero =>
    intro files h
    refine ⟨?_, by simpa [al_run] using h⟩
    simp only [al_run, List.map_nil]
    symm
    apply List.eq_nil_of_length_eq_zero
    rw [List.length_flatten]
    simp only [List.map_map]
    simpa [al_total, Function.comp] using h
  | succ k ih =>
    intro files h
    rcases hread : al_read files with ⟨o, files'⟩
    rcases o with _ | x
    · exact absurd (al_read_none files files' hread) (by omega)
    · obtain ⟨hd, nm⟩ := x
      have hstep := al_read_some_step files hd nm files' hread
      have hk : al_total files' = k := by omega
      simp only [al_run, hread]
      exact ⟨by simp only [List.map_cons, (ih files' hk).1, hstep.2], (ih files' hk).2⟩

/-! ## C2: arrays are read file by file, in list order -/

/-- C2: for every list of input files, successive `array_loop_t::read`
calls return the arrays file by file in list order, exhausting each file
before opening the next (the headers produced by running the loop to
completion are exactly the concatenation of the files' array lists), and
the next `read` after the last array reports "no more arrays". -/
theorem array_loop_read_order (files : List al_source) (hne : files ≠ []) :
    ((al_run (al_total files) files).1.map Prod.fst
        = (files.map (fun f => f.arrays)).flatten)
    ∧ (al_read (al_run (al_total files) files).2).1 = none := by
  have h := al_run_flatten (al_total files) files rfl
  refine ⟨h.1, ?_⟩
  rcases hr : al_read (al_run (al_total files) files).2 with ⟨o, s⟩
  rcases o with _ | x
  · rfl
  · obtain ⟨hd, nm⟩ := x
    have := al_read_some_step _ hd nm s hr
    omega

theorem array_loop_read_order_witness :
    (al_run 3 demo_files).1.map Prod.fst = [demo_hA0, demo_hA1, demo_hB0]
    ∧ (al_read (al_run 3 demo_files).2).1 = none := by
  have h := array_loop_read_order demo_files (by decide)
  exact ⟨h.1.trans (by decide), h.2⟩

/-! ## C3 helper lemmas: element loop transfer invariant -/

theorem el_write_fields (B : Nat) (bytes inp fl ob : List Nat) (pos : Nat) :
    (el_write B bytes ⟨inp, pos, fl, ob⟩).flushed
        ++ (el_write B bytes ⟨inp, pos, fl, ob⟩).outbuf = fl ++ ob ++ bytes
    ∧ (el_write B bytes ⟨inp, pos, fl, ob⟩).input = inp
    ∧ (el_write B bytes ⟨inp, pos, fl, ob⟩).pos = pos := by
  simp only [el_write]
  split <;> simp

theorem el_transfer_invariant (S B : Nat) :
    ∀ (k : Nat) (st : el_state),
      st.flushed ++ st.outbuf = st.input.take (st.pos * S) →
      (st.pos + k) * S ≤ st.input.length →
      (el_transfer S B k st).map (fun r => (r.input, r.pos, r.flushed ++ r.outbuf))
        = Except.ok (st.input, st.pos + k, st.input.take ((st.pos + k) * S)) := by
  intro k
  induction k with
  | zero =>
    intro st hinv hlen
    simp only [el_transfer, Except.map, Nat.add_zero]
    rw [hinv]
  | succ k ih =>
    intro st hinv hlen
    obtain ⟨inp, pos, fl, ob⟩ := st
    dsimp only at hinv hlen ⊢
    have harith : pos + 1 + k = pos + (k + 1) := by omega
    have hread : (pos + 1) * S ≤ inp.length :=
      le_trans (Nat.mul_le_mul_right S (by omega)) hlen
    simp only [el_transfer, el_read, dite_eq_ite, if_pos hread]
    have hw := el_write_fields B ((inp.drop (pos * S)).take (1 * S)) inp fl ob (pos + 1)
    have hinvW : (el_write B ((inp.drop (pos * S)).take (1 * S)) ⟨inp, pos + 1, fl, ob⟩).flushed
          ++ (el_write B ((inp.drop (pos * S)).take (1 * S)) ⟨inp, pos + 1, fl, ob⟩).outbuf
        = (el_write B ((inp.drop (pos * S)).take (1 * S)) ⟨inp, pos + 1, fl, ob⟩).input.take
            ((el_write B ((inp.drop (pos * S)).take (1 * S)) ⟨inp, pos + 1, fl, ob⟩).pos * S) := by
      rw [hw.1, hw.2.1, hw.2.2, hinv, one_mul, ← List.take_add]
      congr 1
      ring
    have hlenW : ((el_write B ((inp.drop (pos * S)).take (1 * S)) ⟨inp, pos + 1, fl, ob⟩).pos + k) * S
        ≤ (el_write B ((inp.drop (pos * S)).take (1 * S)) ⟨inp, pos + 1, fl, ob⟩).input.length := by
      rw [hw.2.1, hw.2.2, harith]
      exact hlen
    have hrun := ih _ hinvW hlenW
    rw [hw.2.1, hw.2.2] at hrun
    rw [hrun, harith]

/-! ## C3: the element loop round-trips all bytes -/

/-- C3: for all N ≥ 0 and S ≥ 1, transferring N elements of size S
through the element loop — reading each element with
`element_loop_t::read`, writing it with `element_loop_t::write`, and
performing the final flush — reproduces the input byte sequence in the
output byte for byte. -/
theorem element_loop_roundtrip (N S batch : Nat) (hS : 1 ≤ S)
    (input : List Nat) (hlen : input.length = N * S) :
    (el_transfer S (el_bufsize S batch) N (el_start input)).map
        (fun st => (el_finish st).flushed)
      = Except.ok input := by
  have h := el_transfer_invariant S (el_bufsize S batch) N (el_start input)
    (by simp [el_start])
    (le_of_eq (by dsimp only [el_start]; rw [Nat.zero_add, hlen]))
  rcases hres : el_transfer S (el_bufsize S batch) N (el_start input) with e | st
  · rw [hres] at h
    simp [Except.map] at h
  · rw [hres] at h
    simp only [Except.map, Except.ok.injEq, Prod.mk.injEq] at h ⊢
    obtain ⟨hin, hpos, hcontent⟩ := h
    unfold el_finish
    rw [hcontent, hin]
    simp only [el_start]
    rw [show (0 + N) * S = input.length from by rw [Nat.zero_add, hlen], List.take_length]

theorem element_loop_roundtrip_witness :
    (el_transfer 3 (el_bufsize 3 2) 2 (el_start [10, 11, 12, 13, 14, 15])).map
        (fun st => (el_finish st).flushed)
      = Except.ok [10, 11, 12, 13, 14, 15] :=
  element_loop_roundtrip 2 3 2 (by decide) [10, 11, 12, 13, 14, 15] (by decide)

/-! ## C6: temp-file buffering -/

/-- C6: for every uncompressed array whose data starts at the current
position of stream `f`, `buffer_data` produces a temporary file
positioned at offset 0 containing exactly the array's element data
(`data_size = elements × element_size` bytes), a buffered header with
the same component/dimension layout and compression mode `none`, and
leaves `f` positioned at the first byte after the array's data. -/
theorem buffer_data_correct (header : gta_header) (f : cfile)
    (hcomp : header.compression = gta_compression.none)
    (hdata : f.pos + header.data_size ≤ f.data.length) :
    buffer_data header f = Except.ok
      (⟨header.components, header.dimensions, gta_compression.none⟩,
       ⟨f.data, f.pos + header.data_size⟩,
       ⟨(f.data.drop f.pos).take header.data_size, 0⟩)
    ∧ (buffer_data header f).map (fun r => r.2.2.data.length)
        = Except.ok header.data_size := by
  have hres : buffer_data header f = Except.ok
      (⟨header.components, header.dimensions, gta_compression.none⟩,
       ⟨f.data, f.pos + header.data_size⟩,
       ⟨(f.data.drop f.pos).take header.data_size, 0⟩) := by
    unfold buffer_data
    rw [if_pos hdata]
  refine ⟨hres, ?_⟩
  rw [hres]
  simp only [Except.map, Except.ok.injEq, List.length_take, List.length_drop]
  omega

theorem buffer_data_correct_witness :
    buffer_data demo_h10x8 ⟨List.range 100, 5⟩ = Except.ok
      (⟨[(gta_type.uint64, 8)], [10], gta_compression.none⟩,
       ⟨List.range 100, 85⟩,
       ⟨((List.range 100).drop 5).take 80, 0⟩)
    ∧ (buffer_data demo_h10x8 ⟨List.range 100, 5⟩).map (fun r => r.2.2.data.length)
        = Except.ok 80 := by
  have h := buffer_data_correct demo_h10x8 ⟨List.range 100, 5⟩ (by decide) (by decide)
  exact ⟨h.1.trans (by decide), h.2.trans (by decide)⟩

/-! ## C5 helper lemmas: the textual type codec -/

theorem scalar_table_valid : ∀ p ∈ scalar_type_names, valid_type_pair p.2.1 p.2.2 := by
  decide

theorem find?_blob_name_eq_none (ds : List Char) :
    scalar_type_names.find? (fun p => p.1 == String.mk ('b' :: 'l' :: 'o' :: 'b' :: ds))
      = none := by
  rw [List.find?_eq_none]
  intro x hx
  simp only [scalar_type_names, List.mem_cons, List.not_mem_nil, or_false] at hx
  rcases hx with rfl | rfl | rfl | rfl | rfl | rfl | rfl | rfl | rfl | rfl | rfl | rfl | rfl <;>
    exact fun hc => Bool.noConfusion hc

theorem type_from_string_blob (ds : List Char) (h1 : ds ≠ []) (h2 : ds.all is_digit_char = true) :
    type_from_string (String.mk ('b' :: 'l' :: 'o' :: 'b' :: ds))
      = if 0 < decVal ds then Except.ok (gta_type.blob, decVal ds)
        else Except.error exc_t.FormatError := by
  unfold type_from_string
  rw [find?_blob_name_eq_none ds]
  show (if ds ≠ [] ∧ ds.all is_digit_char = true then
          if 0 < decVal ds then Except.ok (gta_type.blob, decVal ds)
          else Except.error exc_t.FormatError
        else Except.error exc_t.FormatError) = _
  rw [if_pos ⟨h1, h2⟩]

/-! ## C5: the type name codec -/

/-- C5: `type_from_string` maps `"int32"` to the integer tag of width 4;
it fails with `FormatError` on the unknown name `"bogus"` and on every
blob name with a non-positive (zero) width; `type_to_string` inverts the
mapping on every valid `(type tag, width)` pair; every accepted name
denotes a valid pair, and every rejection is a `FormatError`. -/
theorem type_string_roundtrip :
    type_from_string "int32" = Except.ok (gta_type.int32, 4)
    ∧ type_from_string "bogus" = Except.error exc_t.FormatError
    ∧ (∀ ds : List Char, ds ≠ [] → ds.all is_digit_char = true → decVal ds = 0 →
        type_from_string (String.mk ('b' :: 'l' :: 'o' :: 'b' :: ds))
          = Except.error exc_t.FormatError)
    ∧ (∀ t w, valid_type_pair t w →
        type_from_string (type_to_string t w) = Except.ok (t, w))
    ∧ (∀ s t w, type_from_string s = Except.ok (t, w) → valid_type_pair t w)
    ∧ (∀ s e, type_from_string s = Except.error e → e = exc_t.FormatError) := by
  refine ⟨by decide, by decide, ?_, ?_, ?_, ?_⟩
  · intro ds h1 h2 h0
    rw [type_from_string_blob ds h1 h2, if_neg (by omega)]
  · intro t w hv
    rcases hv with hw | ⟨rfl, hpos⟩
    · cases t <;> simp [gta_type.scalar_width] at hw <;> subst hw <;> decide
    · rw [show type_to_string gta_type.blob w
            = String.mk ('b' :: 'l' :: 'o' :: 'b' :: uint_to_str w) from rfl,
          type_from_string_blob (uint_to_str w) (uint_to_str_ne_nil w) (uint_to_str_digits w),
          decVal_uint_to_str w, if_pos hpos]
  · intro s t w h
    unfold type_from_string at h
    rcases hf : scalar_type_names.find? (fun p => p.1 == s) with _ | p
    · rw [hf] at h
      dsimp only at h
      split at h
      · split at h
        · split at h
          · rename_i ds hds hpos
            injection h with h3
            injection h3 with h4 h5
            subst h4
            subst h5
            exact Or.inr ⟨rfl, hpos⟩
          · exact absurd h (by simp)
        · exact absurd h (by simp)
      · exact absurd h (by simp)
    · rw [hf] at h
      have hp := List.mem_of_find?_eq_some hf
      have h2 : p.2 = (t, w) := Except.ok.inj h
      have := scalar_table_valid p hp
      rw [h2] at this
      exact this
  · intro s e h
    unfold type_from_string at h
    rcases hf : scalar_type_names.find? (fun p => p.1 == s) with _ | p
    · rw [hf] at h
      dsimp only at h
      split at h
      · split at h
        · split at h
          · exact absurd h (by simp)
          · exact (Except.error.inj h).symm
        · exact (Except.error.inj h).symm
      · exact (Except.error.inj h).symm
    · rw [hf] at h
      exact absurd h (by simp)

theorem type_string_roundtrip_witness :
    type_from_string (type_to_string gta_type.blob 16) = Except.ok (gta_type.blob, 16)
    ∧ type_from_string "int32" = Except.ok (gta_type.int32, 4)
    ∧ type_from_string "blob0" = Except.error exc_t.FormatError := by
  refine ⟨type_string_roundtrip.2.2.2.1 gta_type.blob 16 (Or.inr ⟨rfl, by decide⟩),
    type_string_roundtrip.1,
    ?_⟩
  have h := type_string_roundtrip.2.2.1 ['0'] (by decide) (by decide) (by decide)
  exact h
